import Mathlib

/-!
Cinder-Warping: a verification development over `include/Warp.h`.

The header declares four classes (`Warp`, `WarpBilinear`, `WarpPerspective`,
`WarpPerspectiveBilinear`).  The member functions whose bodies are inline in the header are
embedded here as Lean functions on explicit state records; the arithmetic helper
`WarpBilinear::gcd` is embedded on `Int` with the truncating remainder of C++.

Conventions.
* `F` is the carrier of the `float` / `double` fields.  Nothing proved about the state
  records inspects a value of type `F`.  The homography section works in exact arithmetic
  and takes `F := ℚ`.
* A `std::shared_ptr` to a GL object is an `Option Nat`: `none` is the null pointer, which is
  what `reset()` on the pointer leaves behind.
* A member function that mutates the object is a function `State → args → State`; a
  member function that is `const`, or only reads, returns its value together with the
  state it leaves, which is the state it was given.
-/

namespace Warping

/-! ## Data model -/

/-- The cinder type `ci::vec2` (also used for `ci::ivec2` with `F := Int`). -/
structure Vec2 (F : Type) where
  x : F
  y : F
deriving DecidableEq, Repr

/-- The cinder type `ci::vec4`. -/
structure Vec4 (F : Type) where
  x : F
  y : F
  z : F
  w : F
deriving DecidableEq, Repr

/-- The cinder type `ci::mat4`, written as its four rows in the mathematical (row, column)
reading, so that `Mat4.mulVec m v` is the matrix-vector product `m * v`. -/
structure Mat4 (F : Type) where
  r0 : Vec4 F
  r1 : Vec4 F
  r2 : Vec4 F
  r3 : Vec4 F
deriving DecidableEq, Repr

/-- The cinder type `ci::Area`, kept as the four arguments `(x1, y1, x2, y2)` handed to its
constructor: `(x1, y1)` is the upper-left corner and `(x2, y2)` the lower-right corner. -/
structure Area where
  x1 : Int
  y1 : Int
  x2 : Int
  y2 : Int
deriving DecidableEq, Repr

/-- The enumeration `Warp::WarpType`. -/
inductive WarpType where
  | UNKNOWN
  | BILINEAR
  | PERSPECTIVE
  | PERSPECTIVE_BILINEAR
deriving DecidableEq, Repr

/-- A shared pointer to a GL resource (`FboRef`, `VboMeshRef`, `GlslProgRef`, `BatchRef`):
`none` is the null pointer. -/
abbrev GlRef := Option Nat

/-- The static data members of `Warp` (Warp.h, lines 204-210): process-wide state shared by
all warps. -/
structure Statics (F : Type) where
  sIsEditMode : Bool
  sSelectedTime : F
  sMouse : Vec2 Int
deriving DecidableEq

/-- The non-static data members of `Warp` (Warp.h, lines 185-212). -/
structure Warp (F : Type) where
  mType : WarpType
  mIsDirty : Bool
  mWidth : Int
  mHeight : Int
  mWindowSize : Vec2 F
  mBrightness : F
  mSelected : Nat
  mControlsX : Int
  mControlsY : Int
  mPoints : List (Vec2 F)
  mOffset : Vec2 F
deriving DecidableEq

/-- The data members of `WarpBilinear` (Warp.h, lines 283-303) on top of its `Warp` base. -/
structure WarpBilinear (F : Type) extends Warp F where
  mFbo : GlRef
  mFboFormat : Nat
  mVboMesh : GlRef
  mShader : GlRef
  mBatch : GlRef
  mIsLinear : Bool
  mIsAdaptive : Bool
  mX1 : F
  mY1 : F
  mX2 : F
  mY2 : F
  mResolution : Int
  mResolutionX : Int
  mResolutionY : Int
deriving DecidableEq

/-- The data members of `WarpPerspective` (Warp.h, lines 352-357) on top of its `Warp` base. -/
structure WarpPerspective (F : Type) extends Warp F where
  mSource : Fin 4 → Vec2 F
  mDestination : Fin 4 → Vec2 F
  mTransform : Mat4 F
  mInverted : Mat4 F

/-- The data members of `WarpPerspectiveBilinear` (Warp.h, line 413) on top of its
`WarpBilinear` base; the nested perspective warp is held by shared pointer. -/
structure WarpPerspectiveBilinear (F : Type) extends WarpBilinear F where
  mWarp : Option (WarpPerspective F)

/-! ## Edit mode (static members of `Warp`, lines 72-76) -/

namespace Statics

variable {F : Type}

/-- The source is `static bool isEditModeEnabled() { return (bool)sIsEditMode; }`. -/
def isEditModeEnabled (g : Statics F) : Bool × Statics F := (g.sIsEditMode, g)

/-- The source is `static void enableEditMode( bool enabled = true ) { sIsEditMode = enabled; }`. -/
def enableEditMode (g : Statics F) (enabled : Bool) : Statics F :=
  { g with sIsEditMode := enabled }

/-- The source is `static void disableEditMode() { sIsEditMode = false; }`. -/
def disableEditMode (g : Statics F) : Statics F :=
  { g with sIsEditMode := false }

/-- The source is `static void toggleEditMode() { sIsEditMode = !sIsEditMode; }`. -/
def toggleEditMode (g : Statics F) : Statics F :=
  { g with sIsEditMode := !g.sIsEditMode }

end Statics

/-! ## Content size accessors of `Warp` (lines 89-105) -/

namespace Warp

variable {F : Type}

/-- The source is `int getWidth() const { return mWidth; }`. -/
def getWidth (s : Warp F) : Int × Warp F := (s.mWidth, s)

/-- The source is `int getHeight() const { return mHeight; }`. -/
def getHeight (s : Warp F) : Int × Warp F := (s.mHeight, s)

/-- The source is `ci::ivec2 getSize() const { return ci::ivec2( mWidth, mHeight ); }`. -/
def getSize (s : Warp F) : Vec2 Int × Warp F := (⟨s.mWidth, s.mHeight⟩, s)

/-- The source is `ci::Area getBounds() const { return ci::Area( 0, 0, mWidth, mHeight ); }`. -/
def getBounds (s : Warp F) : Area × Warp F := (⟨0, 0, s.mWidth, s.mHeight⟩, s)

end Warp

/-! ## `WarpBilinear`: inline members (lines 237-243, 281-282) -/

namespace WarpBilinear

variable {F : Type}

/-- The source is
`void setSize( int w, int h ) override { Warp::setSize( w, h ); mFbo.reset(); }`.
The body of `Warp::setSize(int, int)` is not in the header; it is the parameter
`baseSetSize`, acting on the `Warp` base sub-object. -/
def setSize (baseSetSize : Warp F → Int → Int → Warp F) (b : WarpBilinear F) (w h : Int) :
    WarpBilinear F :=
  { b with toWarp := baseSetSize b.toWarp w h, mFbo := none }

/-- The source is `void setLinear( bool enabled = true ) { mIsLinear = enabled; mIsDirty = true; }`. -/
def setLinear (b : WarpBilinear F) (enabled : Bool) : WarpBilinear F :=
  { b with toWarp := { b.toWarp with mIsDirty := true }, mIsLinear := enabled }

/-- The source is `void setCurved( bool enabled = true ) { mIsLinear = !enabled; mIsDirty = true; }`. -/
def setCurved (b : WarpBilinear F) (enabled : Bool) : WarpBilinear F :=
  { b with toWarp := { b.toWarp with mIsDirty := true }, mIsLinear := !enabled }

/-- The source is
`inline int gcd( int a, int b ) const { if( b == 0 ) return a; else return gcd( b, a%b ); }`.
The C++ `%` on `int` truncates toward zero, which is `Int.tmod`.  The function reads no
member, so the object is not an argument.  The recursion is on `|b|`: the remainder is
strictly smaller in absolute value than a non-zero divisor. -/
def gcd (a b : Int) : Int :=
  if b = 0 then a else gcd b (a.tmod b)
termination_by b.natAbs
decreasing_by
  have hmod : (a.tmod b).natAbs = a.natAbs % b.natAbs := by
    cases a <;> cases b <;> simp [Int.tmod] <;> rfl
  rw [hmod]
  exact Nat.mod_lt _ (Int.natAbs_pos.mpr (by assumption))

/-- The same recursion as `gcd`, with the depth of the call stack bounded by `fuel`: `none`
means the bound was reached before the recursion ended. -/
def gcdFuel : Nat → Int → Int → Option Int
  | 0, _, _ => none
  | fuel + 1, a, b => if b = 0 then some a else gcdFuel fuel b (a.tmod b)

/-- Modelled from the spec: the clamping of an index onto `[lo, hi]` that `get(col, row)`
applies; the body of `getPoint` is not in the header. -/
def clamp (v lo hi : Int) : Int :=
  if v < lo then lo else if hi < v then hi else v

/-- Modelled from the spec: the body of `WarpBilinear::getPoint( int col, int row )` is not in
the header (line 275 declares it, with the comment that the values for col and row are
clamped to prevent errors).  The spec's `get(col, row)` clamps `col` to `[0, controlsX-1]` and
`row` to `[0, controlsY-1]` and reads the grid, which the spec's data model indexes
row-major.  The read of `mPoints` is `none` when the index is outside the vector. -/
def getPoint (b : WarpBilinear F) (col row : Int) : Option (Vec2 F) :=
  let c := clamp col 0 (b.mControlsX - 1)
  let r := clamp row 0 (b.mControlsY - 1)
  let i := r * b.mControlsX + c
  if i < 0 then none else b.mPoints[i.toNat]?

end WarpBilinear

/-! ## Virtual dispatch of `setSize` (lines 98-105, 238, 391) -/

/-- An object of one of the three concrete classes, tagged with its most-derived class. -/
inductive Object (F : Type) where
  | bilinear (b : WarpBilinear F)
  | perspective (p : WarpPerspective F)
  | perspectiveBilinear (pb : WarpPerspectiveBilinear F)

namespace Object

variable {F : Type}

/-- The `Warp` base sub-object. -/
def toWarp : Object F → Warp F
  | bilinear b => b.toWarp
  | perspective p => p.toWarp
  | perspectiveBilinear pb => pb.toWarp

/-- The virtual call `setSize( w, h )`.  `WarpBilinear` overrides it inline (line 238);
`WarpPerspective` inherits `Warp::setSize`; `WarpPerspectiveBilinear` overrides it (line 391)
with a body that is not in the header, the parameter `pbSetSize`. -/
def setSize (baseSetSize : Warp F → Int → Int → Warp F)
    (pbSetSize : WarpPerspectiveBilinear F → Int → Int → WarpPerspectiveBilinear F)
    (o : Object F) (w h : Int) : Object F :=
  match o with
  | bilinear b => bilinear (WarpBilinear.setSize baseSetSize b w h)
  | perspective p => perspective { p with toWarp := baseSetSize p.toWarp w h }
  | perspectiveBilinear pb => perspectiveBilinear (pbSetSize pb w h)

/-- The source is `virtual void setWidth( int w ) { setSize( w, mHeight ); }`; no class
overrides it, and the call inside is virtual. -/
def setWidth (baseSetSize : Warp F → Int → Int → Warp F)
    (pbSetSize : WarpPerspectiveBilinear F → Int → Int → WarpPerspectiveBilinear F)
    (o : Object F) (w : Int) : Object F :=
  setSize baseSetSize pbSetSize o w o.toWarp.mHeight

/-- The source is `virtual void setHeight( int h ) { setSize( mWidth, h ); }`. -/
def setHeight (baseSetSize : Warp F → Int → Int → Warp F)
    (pbSetSize : WarpPerspectiveBilinear F → Int → Int → WarpPerspectiveBilinear F)
    (o : Object F) (h : Int) : Object F :=
  setSize baseSetSize pbSetSize o o.toWarp.mWidth h

end Object

/-! ## LinearSolver: `WarpPerspective::gaussianElimination` (line 350)

The header only declares `void gaussianElimination( float * input, int n ) const`.  The
definitions of this section follow the spec's LinearSolver over exact rationals.  The
augmented matrix is a list of rows; a row is the list of its entries, the right-hand side
last. -/

namespace LinearSolver

/-- Modelled from the spec: the sum `Σ r[j] * x[j]` that elimination and back-substitution
form, over the shorter of the two lists; the body of `gaussianElimination` is not in the
header. -/
def dot : List ℚ → List ℚ → ℚ
  | a :: r, x :: xs => a * x + dot r xs
  | _, _ => 0

/-- Modelled from the spec: the entry of a row in the current pivot column, which is the
first entry that is still stored; the body of `gaussianElimination` is not in the header. -/
def lead (r : List ℚ) : ℚ := r.headD 0

/-- Modelled from the spec: the scan for "the row with maximal absolute value in that column
among remaining rows".  `best` is the index of the best row so far, `bestAbs` the absolute
value of its entry, and the scan moves to a later row only when that row is strictly
larger.  The body of `gaussianElimination` is not in the header. -/
def pivotScan (best : Nat) (bestAbs : ℚ) : Nat → List (List ℚ) → Nat
  | _, [] => best
  | k, r :: rest =>
    if bestAbs < |lead r| then pivotScan k |lead r| (k + 1) rest
    else pivotScan best bestAbs (k + 1) rest

/-- Modelled from the spec: the index, among the remaining rows, of the pivot row chosen by
partial pivoting; the body of `gaussianElimination` is not in the header. -/
def pivotIndex (rows : List (List ℚ)) : Nat :=
  pivotScan 0 |lead (rows.headD [])| 1 rows.tail

/-- Modelled from the spec: "eliminate that column from all lower rows".  The row `u` loses
its entry in the pivot column by subtracting the multiple `u[j] / p[j]` of the pivot row
`p`; the entry that becomes zero is not stored.  The body of `gaussianElimination` is not in
the header. -/
def eliminate (p u : List ℚ) : List ℚ :=
  List.zipWith (fun a b => a - lead u / lead p * b) u.tail p.tail

/-- Modelled from the spec: forward elimination with partial pivoting over `n` pivot
columns.  For each pivot column the pivot row is selected, swapped into position (the row
that was in position takes its place), and the column is eliminated from all lower rows.
The result is `none` when the selected pivot is zero.  Row `k` of the triangular result
holds the columns `k..n` of the in-place matrix, the zeros below the diagonal not being
stored.  The body of `gaussianElimination` is not in the header. -/
def forwardEliminate : Nat → List (List ℚ) → Option (List (List ℚ))
  | 0, _ => some []
  | n + 1, rows =>
    let k := pivotIndex rows
    let p := rows.getD k []
    if lead p = 0 then none
    else
      let lower := (rows.set k (rows.headD [])).tail
      match forwardEliminate n (lower.map (eliminate p)) with
      | none => none
      | some t => some (p :: t)

/-- Modelled from the spec: "back-substitute from the last row upward".  The unknown of a
row is its right-hand side minus the contributions of the unknowns below, divided by the
diagonal entry.  The body of `gaussianElimination` is not in the header. -/
def backSubstitute : List (List ℚ) → List ℚ
  | [] => []
  | p :: t =>
    let xs := backSubstitute t
    (p.getLastD 0 - dot p.tail xs) / lead p :: xs

/-- An `n × (n+1)` augmented matrix: `n` rows of `n + 1` entries. -/
def WellShaped (rows : List (List ℚ)) (n : Nat) : Prop :=
  rows.length = n ∧ ∀ r ∈ rows, r.length = n + 1

/-- The coefficient part of the matrix is nonsingular: the homogeneous system has only the
zero solution.  (`dot r x` with `x` of length `n` does not read the right-hand side.) -/
def Nonsingular (rows : List (List ℚ)) (n : Nat) : Prop :=
  ∀ x : List ℚ, x.length = n → (∀ r ∈ rows, dot r x = 0) → ∀ v ∈ x, v = 0

end LinearSolver

/-! ## Matrices and points -/

namespace Mat4

/-- The identity matrix, `ci::mat4()`. -/
def identity : Mat4 ℚ :=
  ⟨⟨1, 0, 0, 0⟩, ⟨0, 1, 0, 0⟩, ⟨0, 0, 1, 0⟩, ⟨0, 0, 0, 1⟩⟩

/-- The matrix-vector product `m * v`. -/
def mulVec (m : Mat4 ℚ) (v : Vec4 ℚ) : Vec4 ℚ :=
  ⟨m.r0.x * v.x + m.r0.y * v.y + m.r0.z * v.z + m.r0.w * v.w,
   m.r1.x * v.x + m.r1.y * v.y + m.r1.z * v.z + m.r1.w * v.w,
   m.r2.x * v.x + m.r2.y * v.y + m.r2.z * v.z + m.r2.w * v.w,
   m.r3.x * v.x + m.r3.y * v.y + m.r3.z * v.z + m.r3.w * v.w⟩

/-- The matrix whose columns are the four given vectors. -/
def ofCols (c0 c1 c2 c3 : Vec4 ℚ) : Mat4 ℚ :=
  ⟨⟨c0.x, c1.x, c2.x, c3.x⟩, ⟨c0.y, c1.y, c2.y, c3.y⟩,
   ⟨c0.z, c1.z, c2.z, c3.z⟩, ⟨c0.w, c1.w, c2.w, c3.w⟩⟩

/-- The matrix product `a * b`, column by column. -/
def mul (a b : Mat4 ℚ) : Mat4 ℚ :=
  ofCols (a.mulVec ⟨b.r0.x, b.r1.x, b.r2.x, b.r3.x⟩) (a.mulVec ⟨b.r0.y, b.r1.y, b.r2.y, b.r3.y⟩)
    (a.mulVec ⟨b.r0.z, b.r1.z, b.r2.z, b.r3.z⟩) (a.mulVec ⟨b.r0.w, b.r1.w, b.r2.w, b.r3.w⟩)

/-- The rows of `m`, each followed by the entry of `rhs` for that row: the augmented matrix
of the system `m * x = rhs`. -/
def augment (m : Mat4 ℚ) (rhs : Vec4 ℚ) : List (List ℚ) :=
  [[m.r0.x, m.r0.y, m.r0.z, m.r0.w, rhs.x], [m.r1.x, m.r1.y, m.r1.z, m.r1.w, rhs.y],
   [m.r2.x, m.r2.y, m.r2.z, m.r2.w, rhs.z], [m.r3.x, m.r3.y, m.r3.z, m.r3.w, rhs.w]]

end Mat4

/-- The image of the point `p` under `m` after homogeneous division: `m` is applied to
`(p.x, p.y, 0, 1)` and the result divided by its fourth coordinate; `none` when that
coordinate is zero. -/
def transformPoint (m : Mat4 ℚ) (p : Vec2 ℚ) : Option (Vec2 ℚ) :=
  let v := m.mulVec ⟨p.x, p.y, 0, 1⟩
  if v.w = 0 then none else some ⟨v.x / v.w, v.y / v.w⟩

/-- Twice the signed area of the triangle `a b c`; zero exactly when the three points are
collinear. -/
def cross (a b c : Vec2 ℚ) : ℚ :=
  (b.x - a.x) * (c.y - a.y) - (c.x - a.x) * (b.y - a.y)

/-- No three of the four points of the quad are collinear. -/
def NoThreeCollinear (q : Fin 4 → Vec2 ℚ) : Prop :=
  cross (q 0) (q 1) (q 2) ≠ 0 ∧ cross (q 0) (q 1) (q 3) ≠ 0 ∧
  cross (q 0) (q 2) (q 3) ≠ 0 ∧ cross (q 1) (q 2) (q 3) ≠ 0

instance (q : Fin 4 → Vec2 ℚ) : Decidable (NoThreeCollinear q) := by
  unfold NoThreeCollinear
  infer_instance

/-! ## `WarpPerspective` (lines 323-357), in exact arithmetic -/

namespace WarpPerspective

/-- Modelled from the spec: `gaussianElimination( input, n )`, the spec's LinearSolver.  Given
the `n × (n+1)` augmented matrix it returns the solution vector of length `n`, or `none`
when a selected pivot is zero.  The body is not in the header (line 350 declares it). -/
def gaussianElimination (input : List (List ℚ)) (n : Nat) : Option (List ℚ) :=
  (LinearSolver.forwardEliminate n input).map LinearSolver.backSubstitute

/-- Modelled from the spec: the two equations a correspondence `s ↦ d` contributes to the
system in the unknowns `h11 h12 h13 h21 h22 h23 h31 h32`, the ninth parameter being fixed to
1: `h11 x + h12 y + h13 = X (h31 x + h32 y + 1)` and the same with `h21 h22 h23` and `Y`.
The body of `getPerspectiveTransform` is not in the header. -/
def homographyRows (s d : Vec2 ℚ) : List (List ℚ) :=
  [[-s.x, -s.y, -1, 0, 0, 0, s.x * d.x, s.y * d.x, -d.x],
   [0, 0, 0, -s.x, -s.y, -1, s.x * d.y, s.y * d.y, -d.y]]

/-- Modelled from the spec: the `8 × 9` augmented matrix of the four correspondences; the
body of `getPerspectiveTransform` is not in the header. -/
def homographySystem (src dst : Fin 4 → Vec2 ℚ) : List (List ℚ) :=
  homographyRows (src 0) (dst 0) ++ homographyRows (src 1) (dst 1) ++
    homographyRows (src 2) (dst 2) ++ homographyRows (src 3) (dst 3)

/-- Modelled from the spec: the `3 × 3` projective matrix of the solved parameters, embedded
in the identity-padded `4 × 4` matrix (the third coordinate passes through); the body of
`getPerspectiveTransform` is not in the header. -/
def assemble (h : List ℚ) : Mat4 ℚ :=
  ⟨⟨h.getD 0 0, h.getD 1 0, 0, h.getD 2 0⟩,
   ⟨h.getD 3 0, h.getD 4 0, 0, h.getD 5 0⟩,
   ⟨0, 0, 1, 0⟩,
   ⟨h.getD 6 0, h.getD 7 0, 0, 1⟩⟩

/-- Modelled from the spec: `getPerspectiveTransform( src, dst )`, the forward transform of
the spec's HomographyEstimator.  It builds the system, solves it with the LinearSolver and
assembles the matrix; a failure of the solver surfaces as `none`.  The body is not in the
header (line 348 declares it). -/
def getPerspectiveTransform (src dst : Fin 4 → Vec2 ℚ) : Option (Mat4 ℚ) :=
  (gaussianElimination (homographySystem src dst) 8).map assemble

/-- Modelled from the spec: the inverse "via the same elimination applied to the
identity-augmented matrix", one column of the identity at a time; `none` for a singular
matrix.  The code that computes `mInverted` is not in the header. -/
def inverse (m : Mat4 ℚ) : Option (Mat4 ℚ) :=
  match gaussianElimination (m.augment ⟨1, 0, 0, 0⟩) 4,
      gaussianElimination (m.augment ⟨0, 1, 0, 0⟩) 4,
      gaussianElimination (m.augment ⟨0, 0, 1, 0⟩) 4,
      gaussianElimination (m.augment ⟨0, 0, 0, 1⟩) 4 with
  | some [a0, a1, a2, a3], some [b0, b1, b2, b3], some [c0, c1, c2, c3],
      some [d0, d1, d2, d3] =>
    some (Mat4.ofCols ⟨a0, a1, a2, a3⟩ ⟨b0, b1, b2, b3⟩ ⟨c0, c1, c2, c3⟩ ⟨d0, d1, d2, d3⟩)
  | _, _, _, _ => none

/-- Modelled from the spec: `computeTransform(src[4], dst[4]) -> (forward, inverse)` of the
HomographyEstimator; degenerate input surfaces the failure of the solver.  The code is not
in the header. -/
def computeTransform (src dst : Fin 4 → Vec2 ℚ) : Option (Mat4 ℚ × Mat4 ℚ) :=
  match getPerspectiveTransform src dst with
  | none => none
  | some forward =>
    match inverse forward with
    | none => none
    | some inv => some (forward, inv)

/-- Modelled from the spec: `getTransform()` (line 324 declares it, the body is not in the
header).  When the warp is dirty the transform and its inverse are recomputed from the
current source and destination points, stored, and the dirty flag is cleared; on a
degenerate quad the warp falls back to the identity and stays dirty.  When the warp is not
dirty the stored transform is returned. -/
def getTransform (p : WarpPerspective ℚ) : Mat4 ℚ × WarpPerspective ℚ :=
  if p.mIsDirty then
    match computeTransform p.mSource p.mDestination with
    | some (forward, inv) =>
      (forward, { p with toWarp := { p.toWarp with mIsDirty := false },
                         mTransform := forward, mInverted := inv })
    | none =>
      (Mat4.identity, { p with mTransform := Mat4.identity, mInverted := Mat4.identity })
  else (p.mTransform, p)

/-- The source is `ci::mat4 getInvertedTransform() { return mInverted; }` (line 326). -/
def getInvertedTransform {F : Type} (p : WarpPerspective F) : Mat4 F × WarpPerspective F :=
  (p.mInverted, p)

end WarpPerspective

/-! ## Concrete inputs -/

/-- The source corners of the spec's example scenario. -/
def exampleSource : Fin 4 → Vec2 ℚ := ![⟨0, 0⟩, ⟨100, 0⟩, ⟨0, 100⟩, ⟨100, 100⟩]

/-- The destination corners of the spec's example scenario. -/
def exampleDestination : Fin 4 → Vec2 ℚ := ![⟨10, 10⟩, ⟨90, 20⟩, ⟨5, 95⟩, ⟨95, 85⟩]

/-- The corners of the rectangle `[-1, 1] × [0, 1]`: no three are collinear. -/
def straddlingSource : Fin 4 → Vec2 ℚ := ![⟨1, 0⟩, ⟨1, 1⟩, ⟨-1, 0⟩, ⟨-1, 1⟩]

/-- The images of `straddlingSource` under `(x, y) ↦ (1/x, y/x)`: no three are collinear.  The
projective map between the two quads sends the origin to infinity, so its ninth parameter
is 0. -/
def straddlingDestination : Fin 4 → Vec2 ℚ := ![⟨1, 0⟩, ⟨1, 1⟩, ⟨-1, 0⟩, ⟨-1, -1⟩]

/-- A perspective warp over 100 × 100 content whose transform was last computed for the
undistorted quad (transform and inverse are the identity) and whose destination corners
were then moved to the spec's example quad: the warp is dirty. -/
def editedPerspective : WarpPerspective ℚ :=
  { mType := WarpType.PERSPECTIVE, mIsDirty := true, mWidth := 100, mHeight := 100,
    mWindowSize := ⟨100, 100⟩, mBrightness := 1, mSelected := 0, mControlsX := 2,
    mControlsY := 2,
    mPoints := [⟨10, 10⟩, ⟨90, 20⟩, ⟨5, 95⟩, ⟨95, 85⟩], mOffset := ⟨0, 0⟩,
    mSource := exampleSource, mDestination := exampleDestination,
    mTransform := Mat4.identity, mInverted := Mat4.identity }

/-- A bilinear warp with a `3 × 2` control grid, the six points stored row-major. -/
def exampleBilinear : WarpBilinear ℚ :=
  { mType := WarpType.BILINEAR, mIsDirty := false, mWidth := 640, mHeight := 480,
    mWindowSize := ⟨640, 480⟩, mBrightness := 1, mSelected := 0, mControlsX := 3,
    mControlsY := 2,
    mPoints := [⟨0, 0⟩, ⟨1/2, 0⟩, ⟨1, 0⟩, ⟨0, 1⟩, ⟨1/2, 1⟩, ⟨1, 1⟩], mOffset := ⟨0, 0⟩,
    mFbo := none, mFboFormat := 0, mVboMesh := none, mShader := none, mBatch := none,
    mIsLinear := false, mIsAdaptive := true, mX1 := 0, mY1 := 0, mX2 := 1, mY2 := 1,
    mResolution := 16, mResolutionX := 0, mResolutionY := 0 }

/-! ## Theorems: greatest common divisor -/

namespace WarpBilinear

theorem natAbs_tmod (a b : Int) : (a.tmod b).natAbs = a.natAbs % b.natAbs := by
  cases a <;> cases b <;> simp [Int.tmod] <;> rfl

theorem natAbs_tmod_lt (a b : Int) (hb : b ≠ 0) : (a.tmod b).natAbs < b.natAbs := by
  rw [natAbs_tmod]
  exact Nat.mod_lt _ (Int.natAbs_pos.mpr hb)

theorem gcd_zero_right (a : Int) : gcd a 0 = a := by
  rw [gcd]; simp

theorem gcd_step (a b : Int) (hb : b ≠ 0) : gcd a b = gcd b (a.tmod b) := by
  rw [gcd, if_neg hb]

theorem gcd_natAbs (a b : Int) : (gcd a b).natAbs = Nat.gcd a.natAbs b.natAbs := by
  induction a, b using gcd.induct with
  | case1 a => rw [gcd_zero_right]; simp
  | case2 a b hb ih =>
    rw [gcd_step a b hb, ih, natAbs_tmod, Nat.gcd_comm, ← Nat.gcd_rec, Nat.gcd_comm]

theorem gcd_nonneg (a b : Int) (ha : 0 ≤ a) (hb : 0 ≤ b) : 0 ≤ gcd a b := by
  induction a, b using gcd.induct with
  | case1 a => rw [gcd_zero_right]; exact ha
  | case2 a b hb0 ih =>
    rw [gcd_step a b hb0]
    exact ih hb (Int.tmod_nonneg _ ha)

theorem gcd_dvd_left (a b : Int) : gcd a b ∣ a := by
  rw [← Int.natAbs_dvd_natAbs, gcd_natAbs]
  exact Nat.gcd_dvd_left _ _

theorem gcd_dvd_right (a b : Int) : gcd a b ∣ b := by
  rw [← Int.natAbs_dvd_natAbs, gcd_natAbs]
  exact Nat.gcd_dvd_right _ _

theorem dvd_gcd (a b d : Int) (ha : d ∣ a) (hb : d ∣ b) : d ∣ gcd a b := by
  rw [← Int.natAbs_dvd_natAbs, gcd_natAbs]
  exact Nat.dvd_gcd (Int.natAbs_dvd_natAbs.mpr ha) (Int.natAbs_dvd_natAbs.mpr hb)

/-- A call stack of depth `fuel` is enough as soon as `|b| < fuel`. -/
theorem gcdFuel_eq (fuel : Nat) :
    ∀ a b : Int, b.natAbs < fuel → gcdFuel fuel a b = some (gcd a b) := by
  induction fuel with
  | zero => intro a b h; exact absurd h (Nat.not_lt_zero _)
  | succ fuel ih =>
    intro a b h
    by_cases hb : b = 0
    · subst hb
      simp [gcdFuel, gcd_zero_right]
    · rw [gcdFuel, if_neg hb, gcd_step a b hb]
      exact ih b (a.tmod b) (by have := natAbs_tmod_lt a b hb; omega)

/-- On 32-bit operands every value the recursion handles stays a 32-bit value: the
remainder is bounded by the divisor. -/
theorem tmod_in_range (a b : Int) (hb : b ≠ 0) (hr : b.natAbs ≤ 2 ^ 31) :
    (a.tmod b).natAbs < 2 ^ 31 :=
  lt_of_lt_of_le (natAbs_tmod_lt a b hb) hr

/-- Claim C1.  For all integers `a ≥ 0` and `b ≥ 0`, `WarpBilinear::gcd(a, b)` is the greatest
common divisor of `a` and `b`: it is non-negative, divides both, and every common divisor
divides it; in particular `gcd(a, 0) = a`, and for every `controlsX ≥ 2` the value
`gcd(36, controlsX - 1)` divides both `36` and `controlsX - 1`. -/
theorem gcd_is_greatest_common_divisor (a b : Int) (ha : 0 ≤ a) (hb : 0 ≤ b) :
    (0 ≤ gcd a b ∧ gcd a b ∣ a ∧ gcd a b ∣ b ∧ ∀ d : Int, d ∣ a → d ∣ b → d ∣ gcd a b) ∧
    gcd a 0 = a ∧
    ∀ controlsX : Int, 2 ≤ controlsX →
      gcd 36 (controlsX - 1) ∣ 36 ∧ gcd 36 (controlsX - 1) ∣ controlsX - 1 :=
  ⟨⟨gcd_nonneg a b ha hb, gcd_dvd_left a b, gcd_dvd_right a b, fun d => dvd_gcd a b d⟩,
    gcd_zero_right a,
    fun c _ => ⟨gcd_dvd_left 36 (c - 1), gcd_dvd_right 36 (c - 1)⟩⟩

/-- Witness for claim C1 at `a = 36`, `b = 3` (a grid with four columns of control points). -/
theorem gcd_is_greatest_common_divisor_witness :
    (0 : Int) ≤ 36 ∧ (0 : Int) ≤ 3 ∧
    ((0 ≤ gcd 36 3 ∧ gcd 36 3 ∣ 36 ∧ gcd 36 3 ∣ 3 ∧
        ∀ d : Int, d ∣ 36 → d ∣ 3 → d ∣ gcd 36 3) ∧
      gcd 36 0 = 36 ∧
      ∀ controlsX : Int, 2 ≤ controlsX →
        gcd 36 (controlsX - 1) ∣ 36 ∧ gcd 36 (controlsX - 1) ∣ controlsX - 1) :=
  ⟨by decide, by decide, gcd_is_greatest_common_divisor 36 3 (by decide) (by decide)⟩

/-- Claim C8.  For all integers `a` and `b`, negative ones included, with `%` the truncating
remainder: the remainder is strictly smaller in absolute value than a non-zero divisor, so
the recursion of `gcd` ends (a call stack of depth `|b| + 1` is enough); the absolute value
of the result is the greatest common divisor of `|a|` and `|b|`; and the result itself is
not always non-negative, `gcd(-4, 0) = -4`. -/
theorem gcd_terminates_and_natAbs :
    (∀ a b : Int, b ≠ 0 → (a.tmod b).natAbs < b.natAbs) ∧
    (∀ a b : Int, gcdFuel (b.natAbs + 1) a b = some (gcd a b)) ∧
    (∀ a b : Int, (gcd a b).natAbs = Nat.gcd a.natAbs b.natAbs) ∧
    gcd (-4) 0 = -4 ∧ ¬ (0 ≤ gcd (-4) 0) :=
  ⟨natAbs_tmod_lt, fun a b => gcdFuel_eq (b.natAbs + 1) a b (Nat.lt_succ_self _), gcd_natAbs,
    gcd_zero_right (-4), by rw [gcd_zero_right]; decide⟩

end WarpBilinear

/-! ## Theorems: edit mode -/

namespace Statics

variable {F : Type}

/-- Claim C10.  The edit-mode flag is a two-state machine: after `enableEditMode(e)` the
query returns `e`; after `disableEditMode()` it returns false, and `disableEditMode` is
`enableEditMode(false)`; `toggleEditMode()` negates what the query returns, so two
consecutive toggles restore the state; the query leaves the state as it is. -/
theorem editMode_two_state (g : Statics F) (e : Bool) :
    (isEditModeEnabled (enableEditMode g e)).1 = e ∧
    (isEditModeEnabled (disableEditMode g)).1 = false ∧
    disableEditMode g = enableEditMode g false ∧
    (isEditModeEnabled (toggleEditMode g)).1 = !(isEditModeEnabled g).1 ∧
    toggleEditMode (toggleEditMode g) = g ∧
    (isEditModeEnabled g).2 = g := by
  refine ⟨rfl, rfl, rfl, rfl, ?_, rfl⟩
  cases g
  simp [toggleEditMode]

end Statics

/-! ## Theorems: content size -/

namespace Warp

variable {F : Type}

/-- Claim C5.  For every warp state, `getSize()` is `(getWidth(), getHeight())`, `getBounds()` is
the area with upper-left corner `(0, 0)` and lower-right corner `(getWidth(), getHeight())`,
and none of the four accessors changes the state. -/
theorem size_accessors (s : Warp F) :
    (getSize s).1 = ⟨(getWidth s).1, (getHeight s).1⟩ ∧
    (getBounds s).1 = ⟨0, 0, (getWidth s).1, (getHeight s).1⟩ ∧
    (getWidth s).2 = s ∧ (getHeight s).2 = s ∧ (getSize s).2 = s ∧ (getBounds s).2 = s :=
  ⟨rfl, rfl, rfl, rfl, rfl, rfl⟩

end Warp

namespace Object

variable {F : Type}

/-- Claim C6.  For every object and every `w`, `h`: `setWidth(w)` is `setSize(w, getHeight())`
and `setHeight(h)` is `setSize(getWidth(), h)`, with `setSize` dispatched on the most-derived
class; on a `WarpBilinear` the resulting state is that of `Warp::setSize` on the base
sub-object with `mFbo` null and every other member of `WarpBilinear` as it was, the current
height (resp. width) being passed through unchanged. -/
theorem setWidth_setHeight_dispatch (baseSetSize : Warp F → Int → Int → Warp F)
    (pbSetSize : WarpPerspectiveBilinear F → Int → Int → WarpPerspectiveBilinear F)
    (o : Object F) (b : WarpBilinear F) (p : WarpPerspective F)
    (pb : WarpPerspectiveBilinear F) (w h : Int) :
    setWidth baseSetSize pbSetSize o w
      = setSize baseSetSize pbSetSize o w (Warp.getHeight o.toWarp).1 ∧
    setHeight baseSetSize pbSetSize o h
      = setSize baseSetSize pbSetSize o (Warp.getWidth o.toWarp).1 h ∧
    setWidth baseSetSize pbSetSize (bilinear b) w
      = bilinear { b with toWarp := baseSetSize b.toWarp w b.mHeight, mFbo := none } ∧
    setHeight baseSetSize pbSetSize (bilinear b) h
      = bilinear { b with toWarp := baseSetSize b.toWarp b.mWidth h, mFbo := none } ∧
    setWidth baseSetSize pbSetSize (perspective p) w
      = perspective { p with toWarp := baseSetSize p.toWarp w p.mHeight } ∧
    setWidth baseSetSize pbSetSize (perspectiveBilinear pb) w
      = perspectiveBilinear (pbSetSize pb w pb.mHeight) :=
  ⟨rfl, rfl, rfl, rfl, rfl, rfl⟩

end Object

/-! ## Theorems: interpolation mode and control grid of `WarpBilinear` -/

namespace WarpBilinear

variable {F : Type}

/-- Claim C7.  For every `WarpBilinear` state and every `e`, `setLinear(e)` and `setCurved(e)`
leave `mIsDirty = true` (whatever the mode was before), set `mIsLinear` to `e` (resp. to
`!e`), and change no other member: the result is the old state with these two members
replaced, so control points, content size, texture coordinates, resolution and selection
are as before. -/
theorem setLinear_setCurved_frame (b : WarpBilinear F) (e : Bool) :
    ((setLinear b e).mIsDirty = true ∧ (setLinear b e).mIsLinear = e ∧
      setLinear b e =
        { b with toWarp := { b.toWarp with mIsDirty := true }, mIsLinear := e } ∧
      (setLinear b e).mPoints = b.mPoints ∧
      (setLinear b e).mControlsX = b.mControlsX ∧ (setLinear b e).mControlsY = b.mControlsY ∧
      (setLinear b e).mWidth = b.mWidth ∧ (setLinear b e).mHeight = b.mHeight ∧
      (setLinear b e).mX1 = b.mX1 ∧ (setLinear b e).mY1 = b.mY1 ∧
      (setLinear b e).mX2 = b.mX2 ∧ (setLinear b e).mY2 = b.mY2 ∧
      (setLinear b e).mResolution = b.mResolution ∧
      (setLinear b e).mResolutionX = b.mResolutionX ∧
      (setLinear b e).mResolutionY = b.mResolutionY ∧
      (setLinear b e).mSelected = b.mSelected) ∧
    ((setCurved b e).mIsDirty = true ∧ (setCurved b e).mIsLinear = (!e) ∧
      setCurved b e =
        { b with toWarp := { b.toWarp with mIsDirty := true }, mIsLinear := !e } ∧
      (setCurved b e).mPoints = b.mPoints ∧
      (setCurved b e).mControlsX = b.mControlsX ∧ (setCurved b e).mControlsY = b.mControlsY ∧
      (setCurved b e).mWidth = b.mWidth ∧ (setCurved b e).mHeight = b.mHeight ∧
      (setCurved b e).mX1 = b.mX1 ∧ (setCurved b e).mY1 = b.mY1 ∧
      (setCurved b e).mX2 = b.mX2 ∧ (setCurved b e).mY2 = b.mY2 ∧
      (setCurved b e).mResolution = b.mResolution ∧
      (setCurved b e).mResolutionX = b.mResolutionX ∧
      (setCurved b e).mResolutionY = b.mResolutionY ∧
      (setCurved b e).mSelected = b.mSelected) :=
  ⟨⟨rfl, rfl, rfl, rfl, rfl, rfl, rfl, rfl, rfl, rfl, rfl, rfl, rfl, rfl, rfl, rfl⟩,
    ⟨rfl, rfl, rfl, rfl, rfl, rfl, rfl, rfl, rfl, rfl, rfl, rfl, rfl, rfl, rfl, rfl⟩⟩

/-- Claim C9.  For every `WarpBilinear` state and every `e`, `setCurved(e)` produces exactly
the state of `setLinear(!e)`; so `setCurved(false)` puts the warp in linear mode and
`setLinear(false)` in curved mode. -/
theorem setCurved_eq_setLinear_not (b : WarpBilinear F) (e : Bool) :
    setCurved b e = setLinear b (!e) ∧
    (setCurved b false).mIsLinear = true ∧ (setLinear b false).mIsLinear = false :=
  ⟨rfl, rfl, rfl⟩

theorem clamp_bounds (v lo hi : Int) (h : lo ≤ hi) : lo ≤ clamp v lo hi ∧ clamp v lo hi ≤ hi := by
  unfold clamp
  split_ifs <;> omega

theorem clamp_of_mem (v lo hi : Int) (h1 : lo ≤ v) (h2 : v ≤ hi) : clamp v lo hi = v := by
  unfold clamp
  split_ifs <;> omega

theorem clamp_idem (v lo hi : Int) (h : lo ≤ hi) : clamp (clamp v lo hi) lo hi = clamp v lo hi :=
  clamp_of_mem _ _ _ (clamp_bounds v lo hi h).1 (clamp_bounds v lo hi h).2

/-- The row-major index of a cell inside the grid is inside the vector of points. -/
theorem index_in_bounds (cx cy c r : Int) (hc0 : 0 ≤ c) (hc1 : c ≤ cx - 1) (hr0 : 0 ≤ r)
    (hr1 : r ≤ cy - 1) : 0 ≤ r * cx + c ∧ r * cx + c < cx * cy := by
  have hcx : 0 ≤ cx := by omega
  have h1 : 0 ≤ r * cx := mul_nonneg hr0 hcx
  have h2 : r * cx ≤ (cy - 1) * cx := mul_le_mul_of_nonneg_right hr1 hcx
  have h3 : (cy - 1) * cx = cx * cy - cx := by ring
  constructor
  · omega
  · omega

/-- Claim C4.  For every grid with `controlsX ≥ 2`, `controlsY ≥ 2` and `controlsX * controlsY`
stored points, and all integers `col`, `row` (negative or past the last column or row
included), `getPoint(col, row)` does not index out of bounds: the clamped column and row are
inside the grid, the index read is inside `mPoints`, and the value returned is the stored
point of the clamped column and row, which is also what `getPoint` returns at the clamped
coordinates. -/
theorem getPoint_clamped (b : WarpBilinear F) (col row : Int)
    (hx : 2 ≤ b.mControlsX) (hy : 2 ≤ b.mControlsY)
    (hlen : (b.mPoints.length : Int) = b.mControlsX * b.mControlsY) :
    (0 ≤ clamp col 0 (b.mControlsX - 1) ∧ clamp col 0 (b.mControlsX - 1) ≤ b.mControlsX - 1 ∧
      0 ≤ clamp row 0 (b.mControlsY - 1) ∧ clamp row 0 (b.mControlsY - 1) ≤ b.mControlsY - 1) ∧
    (clamp row 0 (b.mControlsY - 1) * b.mControlsX + clamp col 0 (b.mControlsX - 1)).toNat
      < b.mPoints.length ∧
    (∃ p, getPoint b col row = some p ∧
      b.mPoints[(clamp row 0 (b.mControlsY - 1) * b.mControlsX
        + clamp col 0 (b.mControlsX - 1)).toNat]? = some p) ∧
    getPoint b col row
      = getPoint b (clamp col 0 (b.mControlsX - 1)) (clamp row 0 (b.mControlsY - 1)) := by
  obtain ⟨hc0, hc1⟩ := clamp_bounds col 0 (b.mControlsX - 1) (by omega)
  obtain ⟨hr0, hr1⟩ := clamp_bounds row 0 (b.mControlsY - 1) (by omega)
  obtain ⟨hi0, hi1⟩ := index_in_bounds b.mControlsX b.mControlsY _ _ hc0 hc1 hr0 hr1
  have hlt : (clamp row 0 (b.mControlsY - 1) * b.mControlsX
      + clamp col 0 (b.mControlsX - 1)).toNat < b.mPoints.length := by
    omega
  have hget : getPoint b col row = b.mPoints[(clamp row 0 (b.mControlsY - 1) * b.mControlsX
      + clamp col 0 (b.mControlsX - 1)).toNat]? := by
    simp only [getPoint, if_neg (not_lt.mpr hi0)]
  refine ⟨⟨hc0, hc1, hr0, hr1⟩, hlt, ?_, ?_⟩
  · refine ⟨b.mPoints[(clamp row 0 (b.mControlsY - 1) * b.mControlsX
      + clamp col 0 (b.mControlsX - 1)).toNat], ?_, ?_⟩
    · rw [hget]; exact List.getElem?_eq_getElem hlt
    · exact List.getElem?_eq_getElem hlt
  · rw [hget]
    simp only [getPoint, clamp_idem _ _ _ (show (0 : Int) ≤ b.mControlsX - 1 by omega),
      clamp_idem _ _ _ (show (0 : Int) ≤ b.mControlsY - 1 by omega), if_neg (not_lt.mpr hi0)]

/-- Witness for claim C4: the `3 × 2` example grid, asked for column `-3` and row `7`. -/
theorem getPoint_clamped_witness :
    (2 : Int) ≤ exampleBilinear.mControlsX ∧ (2 : Int) ≤ exampleBilinear.mControlsY ∧
    (exampleBilinear.mPoints.length : Int)
      = exampleBilinear.mControlsX * exampleBilinear.mControlsY ∧
    getPoint exampleBilinear (-3) 7 = some ⟨0, 1⟩ ∧
    getPoint exampleBilinear (-3) 7
      = getPoint exampleBilinear (clamp (-3) 0 (exampleBilinear.mControlsX - 1))
          (clamp 7 0 (exampleBilinear.mControlsY - 1)) :=
  ⟨by decide, by decide, by decide, by decide,
    (getPoint_clamped exampleBilinear (-3) 7 (by decide) (by decide) (by decide)).2.2.2⟩

end WarpBilinear
/-! ## Theorems: the linear solver -/

namespace LinearSolver

theorem dot_nil_left (ys : List ℚ) : dot [] ys = 0 := by
  cases ys <;> rfl

theorem dot_nil_right (r : List ℚ) : dot r [] = 0 := by
  cases r <;> rfl

theorem dot_cons_right (r : List ℚ) (y : ℚ) (ys : List ℚ) :
    dot r (y :: ys) = lead r * y + dot r.tail ys := by
  cases r with
  | nil => simp [dot, lead]
  | cons a r => simp [dot, lead]

theorem dot_zipWith_sub (c : ℚ) :
    ∀ (u v ys : List ℚ), u.length = v.length →
      dot (List.zipWith (fun a b => a - c * b) u v) ys = dot u ys - c * dot v ys
  | [], [], ys, _ => by simp [dot_nil_left]
  | [], _ :: _, _, h => by simp at h
  | _ :: _, [], _, h => by simp at h
  | a :: u, b :: v, [], _ => by simp [dot_nil_right]
  | a :: u, b :: v, y :: ys, h => by
    have ih := dot_zipWith_sub c u v ys (by simpa using h)
    simp only [List.zipWith_cons_cons, dot, ih]
    ring

theorem dot_eliminate (p u ys : List ℚ) (h : u.length = p.length) :
    dot (eliminate p u) ys = dot u.tail ys - lead u / lead p * dot p.tail ys := by
  unfold eliminate
  exact dot_zipWith_sub _ _ _ _ (by simp [h])

theorem length_eliminate (p u : List ℚ) (n : Nat) (hu : u.length = n + 1) (hp : p.length = n + 1) :
    (eliminate p u).length = n := by
  simp [eliminate, hu, hp]

theorem dot_append_singleton :
    ∀ (r xs : List ℚ) (t : ℚ), r.length = xs.length + 1 →
      dot r (xs ++ [t]) = dot r xs + r.getLastD 0 * t
  | [], _, _, h => by simp at h
  | [a], [], t, _ => by simp [dot]
  | [_], _ :: _, _, h => by simp at h
  | a :: b :: r, [], t, h => by simp at h
  | a :: b :: r, x :: xs, t, h => by
    have ih := dot_append_singleton (b :: r) xs t (by simpa using h)
    rw [List.cons_append, dot, ih, dot, List.getLastD_cons, List.getLastD_cons,
      List.getLastD_cons]
    ring

theorem dot_replicate_zero : ∀ (r : List ℚ) (n : Nat), dot r (List.replicate n 0) = 0
  | [], n => dot_nil_left _
  | a :: r, 0 => by simp [dot]
  | a :: r, n + 1 => by simp [List.replicate_succ, dot, dot_replicate_zero r n]

theorem pivotScan_spec (rows : List (List ℚ)) :
    ∀ (rest pre : List (List ℚ)) (best : Nat), rows = pre ++ rest → best < pre.length →
      (∀ r ∈ pre, |lead r| ≤ |lead (rows.getD best [])|) →
      pivotScan best |lead (rows.getD best [])| pre.length rest < rows.length ∧
      ∀ r ∈ rows, |lead r| ≤
        |lead (rows.getD (pivotScan best |lead (rows.getD best [])| pre.length rest) [])|
  | [], pre, best, hrows, hbest, hmax => by
    subst hrows
    simp only [pivotScan, List.append_nil] at hmax ⊢
    exact ⟨hbest, hmax⟩
  | r :: rest, pre, best, hrows, hbest, hmax => by
    have hrows2 : rows = (pre ++ [r]) ++ rest := by simp [hrows]
    have hk : rows.getD pre.length [] = r := by
      rw [hrows, List.getD_eq_getElem?_getD, List.getElem?_append_right (le_refl _)]
      simp
    have hlen : (pre ++ [r]).length = pre.length + 1 := by simp
    unfold pivotScan
    split
    · next hlt =>
      have := pivotScan_spec rows rest (pre ++ [r]) pre.length hrows2 (by simp) (by
        intro q hq
        rw [hk]
        rcases List.mem_append.mp hq with hq | hq
        · exact le_trans (hmax q hq) (le_of_lt hlt)
        · simp at hq; subst hq; exact le_refl _)
      rw [hk, hlen] at this
      exact this
    · next hge =>
      have := pivotScan_spec rows rest (pre ++ [r]) best hrows2 (by simp; omega) (by
        intro q hq
        rcases List.mem_append.mp hq with hq | hq
        · exact hmax q hq
        · simp at hq; subst hq; exact not_lt.mp hge)
      rw [hlen] at this
      exact this

theorem pivotIndex_spec (r0 : List ℚ) (rest : List (List ℚ)) :
    pivotIndex (r0 :: rest) < (r0 :: rest).length ∧
    ∀ r ∈ r0 :: rest, |lead r| ≤ |lead ((r0 :: rest).getD (pivotIndex (r0 :: rest)) [])| := by
  have := pivotScan_spec (r0 :: rest) rest [r0] 0 rfl (by simp) (by simp)
  simpa [pivotIndex] using this

theorem mem_swap (r0 : List ℚ) :
    ∀ (rows : List (List ℚ)) (k : Nat), k < rows.length → ∀ r ∈ rows,
      r = rows.getD k [] ∨ r ∈ rows.set k r0
  | [], _, hk, _, _ => by simp at hk
  | q :: rows, 0, _, r, hr => by
    rcases List.mem_cons.mp hr with h | h
    · left; simpa using h
    · right; simp [h]
  | q :: rows, k + 1, hk, r, hr => by
    rcases List.mem_cons.mp hr with h | h
    · right; simp [h]
    · rcases mem_swap r0 rows k (by simpa using hk) r h with h2 | h2
      · left; simpa using h2
      · right; simp [h2]

/-- The rows after the pivot row has been swapped to the front: the pivot row and the rows below it. -/
theorem swap_cover (r0 : List ℚ) (rest : List (List ℚ)) (k : Nat) (hk : k < (r0 :: rest).length) :
    (∀ r ∈ r0 :: rest, r = (r0 :: rest).getD k [] ∨ r ∈ ((r0 :: rest).set k r0).tail) ∧
    (r0 :: rest).getD k [] ∈ r0 :: rest ∧
    (∀ r ∈ ((r0 :: rest).set k r0).tail, r ∈ r0 :: rest) ∧
    ((r0 :: rest).set k r0).tail.length = rest.length := by
  refine ⟨?_, ?_, ?_, by simp⟩
  · intro r hr
    cases k with
    | zero =>
      rcases List.mem_cons.mp hr with h | h
      · left; simpa using h
      · right; simpa using h
    | succ k =>
      rcases List.mem_cons.mp hr with h | h
      · right
        simp only [List.set_cons_succ, List.tail_cons]
        rw [h]
        exact List.mem_set _ _ (by simpa using hk) _
      · simpa using mem_swap r0 rest k (by simpa using hk) r h
  · rw [List.getD_eq_getElem _ _ hk]
    exact List.getElem_mem _
  · intro r hr
    rcases List.mem_or_eq_of_mem_set (List.mem_of_mem_tail hr) with h | h
    · exact h
    · simp [h]

theorem forwardEliminate_sound :
    ∀ (n : Nat) (rows t : List (List ℚ)), WellShaped rows n →
      forwardEliminate n rows = some t →
      (backSubstitute t).length = n ∧ ∀ r ∈ rows, dot r (backSubstitute t ++ [-1]) = 0
  | 0, rows, t, hw, h => by
    simp only [forwardEliminate, Option.some.injEq] at h
    subst h
    have : rows = [] := List.length_eq_zero.mp hw.1
    subst this
    simp [backSubstitute]
  | n + 1, [], t, hw, h => by
    have := hw.1
    simp at this
  | n + 1, r0 :: rest, t, hw, h => by
    obtain ⟨hk, _⟩ := pivotIndex_spec r0 rest
    obtain ⟨hcover, hpmem, hlower, hlen⟩ := swap_cover r0 rest _ hk
    simp only [forwardEliminate, List.headD_cons] at h
    split at h
    · exact absurd h (by simp)
    · next hp0 =>
      split at h
      · exact absurd h (by simp)
      · next t2 ht2 =>
        simp only [Option.some.injEq] at h
        subst h
        have hplen := hw.2 _ hpmem
        have hw2 : WellShaped
            (List.map (eliminate ((r0 :: rest).getD (pivotIndex (r0 :: rest)) []))
              ((r0 :: rest).set (pivotIndex (r0 :: rest)) r0).tail) n := by
          constructor
          · rw [List.length_map, hlen]
            have := hw.1
            simpa using this
          · intro r hr
            obtain ⟨u, hu, rfl⟩ := List.mem_map.mp hr
            exact length_eliminate _ _ _ (hw.2 u (hlower u hu)) hplen
        obtain ⟨ihlen, ih⟩ := forwardEliminate_sound n _ t2 hw2 ht2
        set p := (r0 :: rest).getD (pivotIndex (r0 :: rest)) [] with hp
        set xs := backSubstitute t2 with hxs
        have hptail : p.tail.length = xs.length + 1 := by
          rw [List.length_tail, hplen, ihlen]; rfl
        have hlast : p.tail.getLastD 0 = p.getLastD 0 := by
          cases hpc : p with
          | nil => rw [hpc] at hplen; simp at hplen
          | cons a q =>
            cases q with
            | nil => rw [hpc] at hplen; simp at hplen
            | cons b q => simp [List.getLastD_cons]
        have hpeq : dot p.tail (xs ++ [-1]) =
            - (lead p * ((p.getLastD 0 - dot p.tail xs) / lead p)) := by
          rw [dot_append_singleton _ _ _ hptail, hlast]
          field_simp
          ring
        refine ⟨by simp [backSubstitute, ihlen], ?_⟩
        intro r hr
        simp only [backSubstitute, List.cons_append]
        rw [dot_cons_right]
        rcases hcover r hr with h | h
        · rw [h, hpeq]; ring
        · have e := ih _ (List.mem_map_of_mem _ h)
          rw [dot_eliminate _ _ _ ((hw.2 r hr).trans hplen.symm), hpeq] at e
          have : lead r / lead p * -(lead p * ((p.getLastD 0 - dot p.tail xs) / lead p)) =
              - (lead r * ((p.getLastD 0 - dot p.tail xs) / lead p)) := by
            field_simp
            ring
          rw [this] at e
          linarith

theorem forwardEliminate_complete :
    ∀ (n : Nat) (rows : List (List ℚ)), WellShaped rows n → Nonsingular rows n →
      ∃ t, forwardEliminate n rows = some t
  | 0, rows, _, _ => ⟨[], rfl⟩
  | n + 1, [], hw, _ => by
    have := hw.1
    simp at this
  | n + 1, r0 :: rest, hw, hns => by
    obtain ⟨hk, hmax⟩ := pivotIndex_spec r0 rest
    obtain ⟨hcover, hpmem, hlower, hlen⟩ := swap_cover r0 rest _ hk
    have hplen := hw.2 _ hpmem
    have hp0 : lead ((r0 :: rest).getD (pivotIndex (r0 :: rest)) []) ≠ 0 := by
      intro h0
      have hall : ∀ r ∈ r0 :: rest, lead r = 0 := by
        intro r hr
        have := hmax r hr
        rw [h0, abs_zero] at this
        exact abs_eq_zero.mp (le_antisymm this (abs_nonneg _))
      have := hns (1 :: List.replicate n 0) (by simp) (by
        intro r hr
        rw [dot_cons_right, hall r hr, dot_replicate_zero]
        ring) 1 (by simp)
      exact one_ne_zero this
    have hw2 : WellShaped
        (List.map (eliminate ((r0 :: rest).getD (pivotIndex (r0 :: rest)) []))
          ((r0 :: rest).set (pivotIndex (r0 :: rest)) r0).tail) n := by
      constructor
      · rw [List.length_map, hlen]
        have := hw.1
        simpa using this
      · intro r hr
        obtain ⟨u, hu, rfl⟩ := List.mem_map.mp hr
        exact length_eliminate _ _ _ (hw.2 u (hlower u hu)) hplen
    have hns2 : Nonsingular
        (List.map (eliminate ((r0 :: rest).getD (pivotIndex (r0 :: rest)) []))
          ((r0 :: rest).set (pivotIndex (r0 :: rest)) r0).tail) n := by
      intro xs hxs hker v hv
      set p := (r0 :: rest).getD (pivotIndex (r0 :: rest)) [] with hp
      have := hns ((-(dot p.tail xs) / lead p) :: xs) (by simp [hxs]) (by
        intro r hr
        rw [dot_cons_right]
        rcases hcover r hr with h | h
        · rw [h]; field_simp; ring
        · have e := hker _ (List.mem_map_of_mem _ h)
          rw [dot_eliminate _ _ _ ((hw.2 r hr).trans hplen.symm)] at e
          field_simp at e ⊢
          linarith) v (List.mem_cons_of_mem _ hv)
      exact this
    obtain ⟨t, ht⟩ := forwardEliminate_complete n _ hw2 hns2
    refine ⟨(r0 :: rest).getD (pivotIndex (r0 :: rest)) [] :: t, ?_⟩
    simp only [forwardEliminate, List.headD_cons, if_neg hp0, ht]

end LinearSolver

/-! ## Theorems: collinearity -/

theorem cross_cycle (a b c : Vec2 ℚ) : cross b c a = cross a b c := by
  unfold cross; ring

/-- Cramer's rule for an affine form `l1 x + l2 y + l3` evaluated at four points. -/
theorem cross_affine (l1 l2 l3 : ℚ) (p a b c : Vec2 ℚ) :
    cross a b c * (l1 * p.x + l2 * p.y + l3) =
      cross p b c * (l1 * a.x + l2 * a.y + l3) + cross a p c * (l1 * b.x + l2 * b.y + l3) +
        cross a b p * (l1 * c.x + l2 * c.y + l3) := by
  unfold cross; ring

theorem cross_eliminate (u v w : ℚ) (a b c : Vec2 ℚ)
    (e1 : u * a.x + v * b.x + w * c.x = 0) (e2 : u * a.y + v * b.y + w * c.y = 0)
    (e3 : u + v + w = 0) : u * cross a b c = 0 := by
  unfold cross
  linear_combination (b.y - c.y) * e1 + (c.x - b.x) * e2 + (b.x * c.y - c.x * b.y) * e3

theorem cross_eq_zero_of_line (l1 l2 : ℚ) (a b c : Vec2 ℚ)
    (ha : l1 * a.x + l2 * a.y + 1 = 0) (hb : l1 * b.x + l2 * b.y + 1 = 0)
    (hc : l1 * c.x + l2 * c.y + 1 = 0) : cross a b c = 0 := by
  unfold cross
  linear_combination (b.x * c.y - c.x * b.y) * ha + (c.x * a.y - a.x * c.y) * hb +
    (a.x * b.y - b.x * a.y) * hc

/-- If the projective weight of `p` vanished, all weights would vanish and three source points
would lie on the line `h6 x + h7 y + 1 = 0`. -/
theorem weight_ne_zero (h0 h1 h2 h3 h4 h5 h6 h7 : ℚ) (p a b c p' a' b' c' : Vec2 ℚ)
    (ep1 : h0 * p.x + h1 * p.y + h2 = p'.x * (h6 * p.x + h7 * p.y + 1))
    (ep2 : h3 * p.x + h4 * p.y + h5 = p'.y * (h6 * p.x + h7 * p.y + 1))
    (ea1 : h0 * a.x + h1 * a.y + h2 = a'.x * (h6 * a.x + h7 * a.y + 1))
    (ea2 : h3 * a.x + h4 * a.y + h5 = a'.y * (h6 * a.x + h7 * a.y + 1))
    (eb1 : h0 * b.x + h1 * b.y + h2 = b'.x * (h6 * b.x + h7 * b.y + 1))
    (eb2 : h3 * b.x + h4 * b.y + h5 = b'.y * (h6 * b.x + h7 * b.y + 1))
    (ec1 : h0 * c.x + h1 * c.y + h2 = c'.x * (h6 * c.x + h7 * c.y + 1))
    (ec2 : h3 * c.x + h4 * c.y + h5 = c'.y * (h6 * c.x + h7 * c.y + 1))
    (habc : cross a b c ≠ 0) (hpbc : cross p b c ≠ 0) (hapc : cross a p c ≠ 0)
    (habp : cross a b p ≠ 0) (hdst : cross a' b' c' ≠ 0) :
    h6 * p.x + h7 * p.y + 1 ≠ 0 := by
  intro hw
  have s1 := cross_affine h0 h1 h2 p a b c
  have s2 := cross_affine h3 h4 h5 p a b c
  have s3 := cross_affine h6 h7 1 p a b c
  rw [ep1, ea1, eb1, ec1, hw] at s1
  rw [ep2, ea2, eb2, ec2, hw] at s2
  rw [hw] at s3
  have ua := cross_eliminate (cross p b c * (h6 * a.x + h7 * a.y + 1))
    (cross a p c * (h6 * b.x + h7 * b.y + 1)) (cross a b p * (h6 * c.x + h7 * c.y + 1))
    a' b' c' (by linear_combination -s1) (by linear_combination -s2)
    (by linear_combination -s3)
  have ub := cross_eliminate (cross a p c * (h6 * b.x + h7 * b.y + 1))
    (cross a b p * (h6 * c.x + h7 * c.y + 1)) (cross p b c * (h6 * a.x + h7 * a.y + 1))
    b' c' a' (by linear_combination -s1) (by linear_combination -s2)
    (by linear_combination -s3)
  have uc := cross_eliminate (cross a b p * (h6 * c.x + h7 * c.y + 1))
    (cross p b c * (h6 * a.x + h7 * a.y + 1)) (cross a p c * (h6 * b.x + h7 * b.y + 1))
    c' a' b' (by linear_combination -s1) (by linear_combination -s2)
    (by linear_combination -s3)
  rw [cross_cycle a' b' c'] at ub
  rw [cross_cycle b' c' a', cross_cycle a' b' c'] at uc
  have wa : h6 * a.x + h7 * a.y + 1 = 0 := by
    rcases mul_eq_zero.mp ua with h | h
    · rcases mul_eq_zero.mp h with h | h
      · exact absurd h hpbc
      · exact h
    · exact absurd h hdst
  have wb : h6 * b.x + h7 * b.y + 1 = 0 := by
    rcases mul_eq_zero.mp ub with h | h
    · rcases mul_eq_zero.mp h with h | h
      · exact absurd h hapc
      · exact h
    · exact absurd h hdst
  have wc : h6 * c.x + h7 * c.y + 1 = 0 := by
    rcases mul_eq_zero.mp uc with h | h
    · rcases mul_eq_zero.mp h with h | h
      · exact absurd h habp
      · exact h
    · exact absurd h hdst
  exact habc (cross_eq_zero_of_line h6 h7 a b c wa wb wc)

theorem cross_swap_left (a b c : Vec2 ℚ) : cross b a c = -cross a b c := by
  unfold cross; ring

theorem cross_swap_right (a b c : Vec2 ℚ) : cross a c b = -cross a b c := by
  unfold cross; ring

/-- A linear form that vanishes at two points not collinear with the origin is zero. -/
theorem linear_form_zero (l1 l2 : ℚ) (a b : Vec2 ℚ) (ha : l1 * a.x + l2 * a.y = 0)
    (hb : l1 * b.x + l2 * b.y = 0) (hab : cross ⟨0, 0⟩ a b ≠ 0) : l1 = 0 ∧ l2 = 0 := by
  have e1 : l1 * cross ⟨0, 0⟩ a b = 0 := by
    unfold cross; linear_combination b.y * ha - a.y * hb
  have e2 : l2 * cross ⟨0, 0⟩ a b = 0 := by
    unfold cross; linear_combination a.x * hb - b.x * ha
  exact ⟨(mul_eq_zero.mp e1).resolve_right hab, (mul_eq_zero.mp e2).resolve_right hab⟩

/-! ## Theorems: the perspective transform -/

namespace WarpPerspective

open LinearSolver

theorem gaussianElimination_correct (rows : List (List ℚ)) (n : Nat) (hw : WellShaped rows n)
    (hns : Nonsingular rows n) :
    ∃ x, gaussianElimination rows n = some x ∧ x.length = n ∧ ∀ r ∈ rows, dot r (x ++ [-1]) = 0 := by
  obtain ⟨t, ht⟩ := forwardEliminate_complete n rows hw hns
  obtain ⟨hl, hs⟩ := forwardEliminate_sound n rows t hw ht
  exact ⟨backSubstitute t, by simp [gaussianElimination, ht], hl, hs⟩

theorem homographySystem_wellShaped (src dst : Fin 4 → Vec2 ℚ) :
    WellShaped (homographySystem src dst) 8 := by
  constructor
  · simp [homographySystem, homographyRows]
  · intro r hr
    simp only [homographySystem, homographyRows, List.cons_append, List.nil_append,
      List.mem_cons, List.mem_singleton, List.not_mem_nil, or_false] at hr
    rcases hr with h | h | h | h | h | h | h | h <;> rw [h] <;> rfl

theorem length_eq_eight (x : List ℚ) (h : x.length = 8) :
    ∃ h0 h1 h2 h3 h4 h5 h6 h7, x = [h0, h1, h2, h3, h4, h5, h6, h7] := by
  rcases x with _ | ⟨a, _ | ⟨b, _ | ⟨c, _ | ⟨d, _ | ⟨e, _ | ⟨f, _ | ⟨g, _ | ⟨i, _ | ⟨j, x⟩⟩⟩⟩⟩⟩⟩⟩⟩
  all_goals first
    | exact ⟨_, _, _, _, _, _, _, _, rfl⟩
    | (exfalso; simp at h)

theorem transformPoint_assemble (h0 h1 h2 h3 h4 h5 h6 h7 : ℚ) (p d : Vec2 ℚ)
    (e1 : h0 * p.x + h1 * p.y + h2 = d.x * (h6 * p.x + h7 * p.y + 1))
    (e2 : h3 * p.x + h4 * p.y + h5 = d.y * (h6 * p.x + h7 * p.y + 1))
    (hw : h6 * p.x + h7 * p.y + 1 ≠ 0) :
    transformPoint (assemble [h0, h1, h2, h3, h4, h5, h6, h7]) p = some d := by
  have hx : (h0 * p.x + h1 * p.y + h2) / (h6 * p.x + h7 * p.y + 1) = d.x := by
    rw [e1]; field_simp
  have hy : (h3 * p.x + h4 * p.y + h5) / (h6 * p.x + h7 * p.y + 1) = d.y := by
    rw [e2]; field_simp
  simp only [transformPoint, Mat4.mulVec, assemble, List.getD_cons_zero, List.getD_cons_succ,
    mul_zero, add_zero, zero_mul, mul_one, if_neg hw, hx, hy]

/-- The two equations a correspondence `s ↦ d` contributes, read off the rows of the system. -/
theorem homographyRows_solved (h0 h1 h2 h3 h4 h5 h6 h7 : ℚ) (s d : Vec2 ℚ)
    (hsol : ∀ r ∈ homographyRows s d, dot r ([h0, h1, h2, h3, h4, h5, h6, h7] ++ [-1]) = 0) :
    h0 * s.x + h1 * s.y + h2 = d.x * (h6 * s.x + h7 * s.y + 1) ∧
    h3 * s.x + h4 * s.y + h5 = d.y * (h6 * s.x + h7 * s.y + 1) := by
  have r1 := hsol _ (List.mem_cons_self _ _)
  have r2 := hsol _ (List.mem_cons_of_mem _ (List.mem_cons_self _ _))
  simp only [List.cons_append, List.nil_append, dot] at r1 r2
  constructor
  · linear_combination -r1
  · linear_combination -r2

/-- The two homogeneous equations a correspondence `s ↦ d` contributes. -/
theorem homographyRows_kernel (h0 h1 h2 h3 h4 h5 h6 h7 : ℚ) (s d : Vec2 ℚ)
    (hker : ∀ r ∈ homographyRows s d, dot r [h0, h1, h2, h3, h4, h5, h6, h7] = 0) :
    h0 * s.x + h1 * s.y + h2 = d.x * (h6 * s.x + h7 * s.y) ∧
    h3 * s.x + h4 * s.y + h5 = d.y * (h6 * s.x + h7 * s.y) := by
  have r1 := hker _ (List.mem_cons_self _ _)
  have r2 := hker _ (List.mem_cons_of_mem _ (List.mem_cons_self _ _))
  simp only [dot] at r1 r2
  constructor
  · linear_combination -r1
  · linear_combination -r2

/-- When the first source point is the origin (as for the content corners of a warp) and no
three points of either quad are collinear, the system with the ninth parameter fixed to 1 is
nonsingular. -/
theorem homographySystem_nonsingular_of_origin (src dst : Fin 4 → Vec2 ℚ)
    (h00 : src 0 = ⟨0, 0⟩) (hs : NoThreeCollinear src) (hd : NoThreeCollinear dst) :
    Nonsingular (homographySystem src dst) 8 := by
  intro x hlen hker
  obtain ⟨h0, h1, h2, h3, h4, h5, h6, h7, rfl⟩ := length_eq_eight x hlen
  obtain ⟨a1, a2⟩ := homographyRows_kernel h0 h1 h2 h3 h4 h5 h6 h7 (src 0) (dst 0)
    (fun r hr => hker r (by simp only [homographySystem, List.mem_append]; tauto))
  obtain ⟨b1, b2⟩ := homographyRows_kernel h0 h1 h2 h3 h4 h5 h6 h7 (src 1) (dst 1)
    (fun r hr => hker r (by simp only [homographySystem, List.mem_append]; tauto))
  obtain ⟨c1, c2⟩ := homographyRows_kernel h0 h1 h2 h3 h4 h5 h6 h7 (src 2) (dst 2)
    (fun r hr => hker r (by simp only [homographySystem, List.mem_append]; tauto))
  obtain ⟨d1, d2⟩ := homographyRows_kernel h0 h1 h2 h3 h4 h5 h6 h7 (src 3) (dst 3)
    (fun r hr => hker r (by simp only [homographySystem, List.mem_append]; tauto))
  obtain ⟨s012, s013, s023, s123⟩ := hs
  obtain ⟨-, -, -, t123⟩ := hd
  rw [h00] at s012 s013 s023
  have z2 : h2 = 0 := by
    rw [h00] at a1; simpa using a1
  have z5 : h5 = 0 := by
    rw [h00] at a2; simpa using a2
  subst z2 z5
  -- Cramer's rule at the origin, for the forms (h0, h1, 0), (h3, h4, 0) and (h6, h7, 0)
  have k1 := cross_affine h0 h1 0 ⟨0, 0⟩ (src 1) (src 2) (src 3)
  have k2 := cross_affine h3 h4 0 ⟨0, 0⟩ (src 1) (src 2) (src 3)
  have k3 := cross_affine h6 h7 0 ⟨0, 0⟩ (src 1) (src 2) (src 3)
  rw [b1, c1, d1] at k1
  rw [b2, c2, d2] at k2
  simp only [mul_zero, add_zero] at k1 k2 k3
  have ua := cross_eliminate (cross ⟨0, 0⟩ (src 2) (src 3) * (h6 * (src 1).x + h7 * (src 1).y))
    (cross (src 1) ⟨0, 0⟩ (src 3) * (h6 * (src 2).x + h7 * (src 2).y))
    (cross (src 1) (src 2) ⟨0, 0⟩ * (h6 * (src 3).x + h7 * (src 3).y))
    (dst 1) (dst 2) (dst 3) (by linear_combination -k1) (by linear_combination -k2)
    (by linear_combination -k3)
  have ub := cross_eliminate (cross (src 1) ⟨0, 0⟩ (src 3) * (h6 * (src 2).x + h7 * (src 2).y))
    (cross (src 1) (src 2) ⟨0, 0⟩ * (h6 * (src 3).x + h7 * (src 3).y))
    (cross ⟨0, 0⟩ (src 2) (src 3) * (h6 * (src 1).x + h7 * (src 1).y))
    (dst 2) (dst 3) (dst 1) (by linear_combination -k1) (by linear_combination -k2)
    (by linear_combination -k3)
  rw [cross_cycle (dst 1) (dst 2) (dst 3)] at ub
  have wa : h6 * (src 1).x + h7 * (src 1).y = 0 := by
    rcases mul_eq_zero.mp ua with h | h
    · exact (mul_eq_zero.mp h).resolve_left s023
    · exact absurd h t123
  have wb : h6 * (src 2).x + h7 * (src 2).y = 0 := by
    rcases mul_eq_zero.mp ub with h | h
    · refine (mul_eq_zero.mp h).resolve_left ?_
      rw [cross_swap_left]; exact neg_ne_zero.mpr s013
    · exact absurd h t123
  rw [wa, mul_zero, add_zero] at b1 b2
  rw [wb, mul_zero, add_zero] at c1 c2
  obtain ⟨z6, z7⟩ := linear_form_zero h6 h7 (src 1) (src 2) wa wb s012
  obtain ⟨z0, z1⟩ := linear_form_zero h0 h1 (src 1) (src 2) b1 c1 s012
  obtain ⟨z3, z4⟩ := linear_form_zero h3 h4 (src 1) (src 2) b2 c2 s012
  subst z0 z1 z3 z4 z6 z7
  intro v hv
  simpa using hv

/-- Claim C3 (amended).  For every four source and four destination points in which no three
points of either quad are collinear and for which the system with the ninth parameter fixed
to 1 is nonsingular, `getPerspectiveTransform(src, dst)` returns a matrix, and that matrix
maps each `src[i]`, after homogeneous division, onto `dst[i]` for `i = 0..3`, in exact
arithmetic. -/
theorem getPerspectiveTransform_maps (src dst : Fin 4 → Vec2 ℚ)
    (hs : NoThreeCollinear src) (hd : NoThreeCollinear dst)
    (hns : Nonsingular (homographySystem src dst) 8) :
    ∃ m, getPerspectiveTransform src dst = some m ∧
      ∀ i : Fin 4, transformPoint m (src i) = some (dst i) := by
  obtain ⟨x, hx, hlen, hsol⟩ :=
    gaussianElimination_correct _ 8 (homographySystem_wellShaped src dst) hns
  obtain ⟨h0, h1, h2, h3, h4, h5, h6, h7, rfl⟩ := length_eq_eight x hlen
  obtain ⟨a1, a2⟩ := homographyRows_solved h0 h1 h2 h3 h4 h5 h6 h7 (src 0) (dst 0)
    (fun r hr => hsol r (by simp only [homographySystem, List.mem_append]; tauto))
  obtain ⟨b1, b2⟩ := homographyRows_solved h0 h1 h2 h3 h4 h5 h6 h7 (src 1) (dst 1)
    (fun r hr => hsol r (by simp only [homographySystem, List.mem_append]; tauto))
  obtain ⟨c1, c2⟩ := homographyRows_solved h0 h1 h2 h3 h4 h5 h6 h7 (src 2) (dst 2)
    (fun r hr => hsol r (by simp only [homographySystem, List.mem_append]; tauto))
  obtain ⟨d1, d2⟩ := homographyRows_solved h0 h1 h2 h3 h4 h5 h6 h7 (src 3) (dst 3)
    (fun r hr => hsol r (by simp only [homographySystem, List.mem_append]; tauto))
  obtain ⟨s012, s013, s023, s123⟩ := hs
  obtain ⟨t012, t013, t023, t123⟩ := hd
  have w0 := weight_ne_zero h0 h1 h2 h3 h4 h5 h6 h7 (src 0) (src 1) (src 2) (src 3)
    (dst 0) (dst 1) (dst 2) (dst 3) a1 a2 b1 b2 c1 c2 d1 d2 s123 s023
    (by rw [cross_swap_left]; exact neg_ne_zero.mpr s013)
    (by rw [cross_cycle]; exact s012) t123
  have w1 := weight_ne_zero h0 h1 h2 h3 h4 h5 h6 h7 (src 1) (src 0) (src 2) (src 3)
    (dst 1) (dst 0) (dst 2) (dst 3) b1 b2 a1 a2 c1 c2 d1 d2 s023 s123 s013
    (by rw [cross_swap_right]; exact neg_ne_zero.mpr s012) t023
  have w2 := weight_ne_zero h0 h1 h2 h3 h4 h5 h6 h7 (src 2) (src 0) (src 1) (src 3)
    (dst 2) (dst 0) (dst 1) (dst 3) c1 c2 a1 a2 b1 b2 d1 d2 s013
    (by rw [cross_swap_left]; exact neg_ne_zero.mpr s123) s023 s012 t013
  have w3 := weight_ne_zero h0 h1 h2 h3 h4 h5 h6 h7 (src 3) (src 0) (src 1) (src 2)
    (dst 3) (dst 0) (dst 1) (dst 2) d1 d2 a1 a2 b1 b2 c1 c2 s012
    (by rw [← cross_cycle]; exact s123)
    (by rw [cross_swap_right]; exact neg_ne_zero.mpr s023) s013 t012
  refine ⟨assemble [h0, h1, h2, h3, h4, h5, h6, h7], by simp [getPerspectiveTransform, hx], ?_⟩
  intro i
  fin_cases i
  · exact transformPoint_assemble _ _ _ _ _ _ _ _ _ _ a1 a2 w0
  · exact transformPoint_assemble _ _ _ _ _ _ _ _ _ _ b1 b2 w1
  · exact transformPoint_assemble _ _ _ _ _ _ _ _ _ _ c1 c2 w2
  · exact transformPoint_assemble _ _ _ _ _ _ _ _ _ _ d1 d2 w3


/-- Witness for claim C3 (amended): the spec's example scenario.  The source quad starts at
the origin, so the system is nonsingular; the matrix returned sends `(0, 0)` to `(10, 10)`
and `(100, 100)` to `(95, 85)`. -/
theorem getPerspectiveTransform_maps_witness :
    NoThreeCollinear exampleSource ∧ NoThreeCollinear exampleDestination ∧
    Nonsingular (homographySystem exampleSource exampleDestination) 8 ∧
    (∃ m, getPerspectiveTransform exampleSource exampleDestination = some m ∧
      ∀ i : Fin 4, transformPoint m (exampleSource i) = some (exampleDestination i)) ∧
    exampleSource 0 = ⟨0, 0⟩ ∧ exampleDestination 0 = ⟨10, 10⟩ ∧
    exampleSource 3 = ⟨100, 100⟩ ∧ exampleDestination 3 = ⟨95, 85⟩ :=
  ⟨by decide!, by decide!,
    homographySystem_nonsingular_of_origin exampleSource exampleDestination rfl
      (by decide!) (by decide!),
    getPerspectiveTransform_maps exampleSource exampleDestination (by decide!) (by decide!)
      (homographySystem_nonsingular_of_origin exampleSource exampleDestination rfl
        (by decide!) (by decide!)),
    rfl, rfl, rfl, rfl⟩

/-- What `transformPoint m p = some d` says about the homogeneous image of `p`. -/
theorem transformPoint_eq_some (m : Mat4 ℚ) (p d : Vec2 ℚ) (h : transformPoint m p = some d) :
    (m.mulVec ⟨p.x, p.y, 0, 1⟩).x = d.x * (m.mulVec ⟨p.x, p.y, 0, 1⟩).w ∧
    (m.mulVec ⟨p.x, p.y, 0, 1⟩).y = d.y * (m.mulVec ⟨p.x, p.y, 0, 1⟩).w := by
  unfold transformPoint at h
  simp only at h
  split at h
  · exact absurd h (by simp)
  · next hw =>
    simp only [Option.some.injEq] at h
    rw [← h]
    constructor <;> field_simp

/-- Counterexample to claim C3 as stated: source `(1,0),(1,1),(-1,0),(-1,1)` and destination
`(1,0),(1,1),(-1,0),(-1,-1)`.  No three points of either quad are collinear, yet the system
with the ninth parameter fixed to 1 is singular: the solver reports a zero pivot and no
matrix is returned, so no returned matrix maps the source points onto the destination
points; indeed no matrix assembled with the ninth parameter 1 does. -/
theorem getPerspectiveTransform_straddling_fails :
    NoThreeCollinear straddlingSource ∧ NoThreeCollinear straddlingDestination ∧
    getPerspectiveTransform straddlingSource straddlingDestination = none ∧
    (¬ ∃ m, getPerspectiveTransform straddlingSource straddlingDestination = some m ∧
      ∀ i : Fin 4, transformPoint m (straddlingSource i) = some (straddlingDestination i)) ∧
    ∀ h : List ℚ, ¬ ∀ i : Fin 4,
      transformPoint (assemble h) (straddlingSource i) = some (straddlingDestination i) := by
  have h : getPerspectiveTransform straddlingSource straddlingDestination = none := by decide!
  refine ⟨by decide!, by decide!, h, ?_, ?_⟩
  · rintro ⟨m, hm, -⟩
    rw [h] at hm
    exact absurd hm (by simp)
  · intro x hall
    obtain ⟨a1, a2⟩ := transformPoint_eq_some _ _ _ (hall 0)
    obtain ⟨b1, b2⟩ := transformPoint_eq_some _ _ _ (hall 1)
    obtain ⟨c1, c2⟩ := transformPoint_eq_some _ _ _ (hall 2)
    obtain ⟨d1, d2⟩ := transformPoint_eq_some _ _ _ (hall 3)
    simp [assemble, Mat4.mulVec, straddlingSource, straddlingDestination] at a1 a2 b1 b2 c1 c2 d1 d2
    linarith

/-- Claim C2 (the code at the failing input).  `getInvertedTransform()` returns the stored
`mInverted` and leaves the state as it is, whatever the dirty flag.  On the dirty warp
`editedPerspective` it returns the identity, while the transform of the current destination
points has an inverse that is not the identity, and after `getTransform()` the same call
returns that inverse: the result depends on whether `getTransform()` was called first. -/
theorem getInvertedTransform_returns_stored :
    (∀ p : WarpPerspective ℚ,
      (getInvertedTransform p).1 = p.mInverted ∧ (getInvertedTransform p).2 = p) ∧
    editedPerspective.mIsDirty = true ∧
    (getInvertedTransform editedPerspective).1 = Mat4.identity ∧
    (computeTransform editedPerspective.mSource editedPerspective.mDestination).map
        (fun t => Mat4.mul t.1 t.2) = some Mat4.identity ∧
    (computeTransform editedPerspective.mSource editedPerspective.mDestination).map
        (fun t => t.2) = some (getInvertedTransform (getTransform editedPerspective).2).1 ∧
    (getInvertedTransform (getTransform editedPerspective).2).1
      ≠ (getInvertedTransform editedPerspective).1 :=
  ⟨fun _ => ⟨rfl, rfl⟩, rfl, rfl, by decide!, by decide!, by decide!⟩

end WarpPerspective

end Warping
